import Mathlib

/-!
Verification of the forecast/auction matching pipeline.

Shallow embedding of the core data model and algorithms of the repository
(`utils/match_auction_forecast.py`, `utils/auction_related_functions.py`,
`utils/read_forecast_data.py`, `utils/small_methods.py`).  Timestamps are
modelled as natural numbers counting minutes since an epoch; dataframes are
lists of typed rows; the polars `sort` (whose tie order is unspecified) is
modelled by the stable `List.insertionSort`; nullable columns are `Option`
valued; prices are rationals.
-/

namespace ForecastAuction

/-- Calendar day of a timestamp, as extracted by `dt.date()` (one day is
1440 minutes). -/
def dateOf (t : Nat) : Nat := t / 1440

/-- Hour of day of a timestamp, as extracted by `dt.hour()`. -/
def hourOf (t : Nat) : Nat := t % 1440 / 60

/-- Minute of hour of a timestamp (0 means the timestamp lies on an hour
boundary). -/
def minuteOf (t : Nat) : Nat := t % 60

/-- Intraday-auction group parsed from a filename by `read_auction_files`
(every file is classified as IDA1, IDA2 or else IDA3). -/
inductive IdaGroup
  | IDA1
  | IDA2
  | IDA3
deriving DecidableEq

/-- Price region parsed from a filename by `read_auction_files`
(every file is classified as DK1 or else DK2). -/
inductive Region
  | DK1
  | DK2
deriving DecidableEq

/-- Row of the cleaned forecast dataframe produced by `read_forecast_df`:
horizon time `Time`, issuance time `PTime`, and the two forecast prices
(non-null after `drop_nulls`). -/
structure ForecastRow where
  time : Nat
  ptime : Nat
  dk1ForecastPrice : ℚ
  dk2ForecastPrice : ℚ
deriving DecidableEq

/-- Row of a raw auction file as parsed by `pl.read_excel`: the `Type`
(quarter-interval label, renamed `Quater_Time`) and `Schedule` (price,
renamed `Area_Price`) columns, both possibly null before `drop_nulls`. -/
structure RawAuctionRow where
  quaterTime : Option String
  areaPrice : Option ℚ
deriving DecidableEq

/-- Catalog row built by `read_auction_files`: one auction result file with
its classification and its delivery date (day number). -/
structure AuctionCatalogRow where
  filepath : String
  region : Region
  idaGroup : IdaGroup
  deliveryDate : Nat
deriving DecidableEq

/-- Row of a per-entry joined table produced by `match_auction_with_forecast`
and consumed by the Merger.  The auction price column of the entry's own
region holds the joined value; the other region's column is absent in the
per-entry table and null-filled by the diagonal `pl.concat`, which the model
folds into the row type as `none`. -/
structure MatchedRow where
  time : Nat
  ptime : Nat
  dk1ForecastPrice : ℚ
  dk2ForecastPrice : ℚ
  auctionPriceDK1 : Option ℚ
  auctionPriceDK2 : Option ℚ
  idaGroup : IdaGroup
  region : Region
  auctionFilepath : String
deriving DecidableEq

/-- String rendering of a `Region`, as it appears in column names and
error messages. -/
def regionStr : Region → String
  | .DK1 => "DK1"
  | .DK2 => "DK2"

/-- String rendering of an `IdaGroup`. -/
def idaGroupStr : IdaGroup → String
  | .IDA1 => "IDA1"
  | .IDA2 => "IDA2"
  | .IDA3 => "IDA3"

/-- Rendering of the auction dict that `match_auction_with_forecast`
interpolates into its error messages: it carries the filepath, region,
IDA group and delivery date of the offending catalog entry. -/
def auctionDictStr (a : AuctionCatalogRow) : String :=
  "filepath: " ++ a.filepath ++ ", Region: " ++ regionStr a.region ++
    ", IDA Group: " ++ idaGroupStr a.idaGroup ++
    ", delivery_date: day " ++ toString a.deliveryDate

/-- Model of `check_unique_time_ptime_combinations` (small_methods.py lines
5-26): the number of distinct `(Time, PTime)` pairs is compared with the
row count. -/
def check_unique_time_ptime_combinations (df : List ForecastRow) : Bool :=
  ((df.map fun r => (r.time, r.ptime)).dedup).length == df.length

/-- Model of the validation tail of `read_forecast_df` (read_forecast_data.py
lines 42-56), starting from the already parsed and cleaned rows: the rows are
sorted ascending by `PTime` and, when `assureUnique` is set, a non-unique
`(Time, PTime)` combination raises a `ValueError` (modelled as `Except.error`).
File discovery, CSV parsing, null dropping and column casting are external
I/O and precede this function. -/
def read_forecast_df (rows : List ForecastRow) (assureUnique : Bool) :
    Except String (List ForecastRow) :=
  let sorted := List.insertionSort (fun a b => a.ptime ≤ b.ptime) rows
  if assureUnique && !(check_unique_time_ptime_combinations sorted) then
    .error "The combinations of Time and PTime are not unique"
  else
    .ok sorted

/-- Prices that survive the `drop_nulls` of `read_single_auction_file`
(auction_related_functions.py line 79): rows with a null in either parsed
column are removed, the remaining `Area_Price` values are kept in order. -/
def auctionKeptPrices (raw : List RawAuctionRow) : List ℚ :=
  raw.filterMap fun r =>
    match r.quaterTime, r.areaPrice with
    | some _, some p => some p
    | _, _ => none

/-- Start of the 15-minute timestamp sequence assigned by
`read_single_auction_file` (line 84): hour 0 of the delivery date, or hour 12
for IDA3. -/
def auctionStartBase (g : IdaGroup) (date : Nat) : Nat :=
  1440 * date + (if g = IdaGroup.IDA3 then 720 else 0)

/-- Timestamped 15-minute auction rows (lines 85-88): row `i` of the
null-dropped file is stamped `base + 15 * i`. -/
def auctionTimedRows (raw : List RawAuctionRow) (g : IdaGroup) (date : Nat) :
    List (Nat × ℚ) :=
  (auctionKeptPrices raw).enum.map fun ip =>
    (auctionStartBase g date + 15 * ip.1, ip.2)

/-- Grouping key of the hourly aggregation (lines 94-97): the calendar date
and the hour of day of `Start_Time`. -/
def bucketKey (t : Nat) : Nat × Nat := (dateOf t, hourOf t)

/-- Mean of a list of rationals (the polars `mean` aggregate on a non-empty
group). -/
def listMean (l : List ℚ) : ℚ := l.sum / l.length

/-- Model of `read_single_auction_file` (auction_related_functions.py lines
60-106): drop null rows, stamp 15-minute start times from hour 0 (hour 12 for
IDA3) of the delivery date, group by (date, hour) and aggregate the mean
price and the minimum start time, then sort ascending by start time.  The
region argument of the source only renames the output price column, so the
model returns plain (start time, hourly price) pairs. -/
def read_single_auction_file (raw : List RawAuctionRow) (g : IdaGroup)
    (date : Nat) : List (Nat × ℚ) :=
  let timed := auctionTimedRows raw g date
  let keys := (timed.map fun r => bucketKey r.1).dedup
  let rows := keys.map fun k =>
    let members := timed.filter fun r => bucketKey r.1 == k
    (((members.map fun r => r.1).min?).getD 0, listMean (members.map fun r => r.2))
  List.insertionSort (fun a b => a.1 ≤ b.1) rows

/-- Issuance hour of day required for an auction group
(match_auction_forecast.py line 95): 15 for IDA1, 22 for IDA2, otherwise 10. -/
def ptimeHourNeeded (g : IdaGroup) : Nat :=
  if g = IdaGroup.IDA1 then 15 else if g = IdaGroup.IDA2 then 22 else 10

/-- Forecast subset selected for one auction before the time-window narrowing
(lines 92-100): rows whose `PTime` falls on the delivery date or on the day
before it, at the required issuance hour, sorted ascending by `Time`.  The
day before the delivery date is `deliveryDate - 1` in truncated natural
subtraction; since all timestamps are non-negative this agrees with the
source for every representable date. -/
def forecastsForAuction (forecastDf : List ForecastRow) (deliveryDate : Nat)
    (g : IdaGroup) : List ForecastRow :=
  let dayBeforeDelivery := deliveryDate - 1
  let filtered := (forecastDf.filter fun r =>
      dateOf r.ptime == deliveryDate || dateOf r.ptime == dayBeforeDelivery).filter
    fun r => hourOf r.ptime == ptimeHourNeeded g
  List.insertionSort (fun a b => a.time ≤ b.time) filtered

/-- Environment of auction files: the contents that `pl.read_excel` would
return for each filepath.  File I/O itself is external to the core. -/
abbrev AuctionFiles := String → List RawAuctionRow

/-- Hourly auction dataframe of one catalog entry, as read inside the loop of
`match_auction_with_forecast` (line 89). -/
def auctionDfOf (files : AuctionFiles) (a : AuctionCatalogRow) :
    List (Nat × ℚ) :=
  read_single_auction_file (files a.filepath) a.idaGroup a.deliveryDate

/-- Forecast rows narrowed to the auction's time span (lines 90-109): only
horizon times between the minimum and maximum auction start times are kept.
When the auction dataframe is empty its min and max are null and the null
comparisons select nothing. -/
def relevantForecasts (files : AuctionFiles) (forecastDf : List ForecastRow)
    (a : AuctionCatalogRow) : List ForecastRow :=
  let adf := auctionDfOf files a
  match (adf.map fun r => r.1).min?, (adf.map fun r => r.1).max? with
  | some s, some e =>
      (forecastsForAuction forecastDf a.deliveryDate a.idaGroup).filter
        fun r => s ≤ r.time && r.time ≤ e
  | _, _ => []

/-- Auction rows narrowed symmetrically to the span of the relevant
forecasts (lines 112-115). -/
def auctionDfRelevant (files : AuctionFiles) (forecastDf : List ForecastRow)
    (a : AuctionCatalogRow) : List (Nat × ℚ) :=
  let rel := relevantForecasts files forecastDf a
  match (rel.map fun r => r.time).min?, (rel.map fun r => r.time).max? with
  | some s, some e => (auctionDfOf files a).filter fun r => s ≤ r.1 && r.1 ≤ e
  | _, _ => []

/-- Tagging of one joined row (lines 118-128): the forecast row keeps its
columns, the auction price lands in the column named after the entry's
region, and the entry's IDA group, region and filepath are attached. -/
def tagRow (a : AuctionCatalogRow) (f : ForecastRow) (p : Option ℚ) :
    MatchedRow where
  time := f.time
  ptime := f.ptime
  dk1ForecastPrice := f.dk1ForecastPrice
  dk2ForecastPrice := f.dk2ForecastPrice
  auctionPriceDK1 := if a.region = Region.DK1 then p else none
  auctionPriceDK2 := if a.region = Region.DK2 then p else none
  idaGroup := a.idaGroup
  region := a.region
  auctionFilepath := a.filepath

/-- Left-outer join of the relevant forecasts with the narrowed auction rows
on `Time = Start_Time` (lines 118-123): every forecast row is kept; it is
paired with each matching auction row, or with a null price when no auction
row matches. -/
def joinedRows (files : AuctionFiles) (forecastDf : List ForecastRow)
    (a : AuctionCatalogRow) : List MatchedRow :=
  let right := auctionDfRelevant files forecastDf a
  (relevantForecasts files forecastDf a).flatMap fun f =>
    let hits := right.filter fun r => r.1 == f.time
    if hits.isEmpty then [tagRow a f none]
    else hits.map fun r => tagRow a f (some r.2)

/-- Error message of line 104. -/
def noForecastsMsg (a : AuctionCatalogRow) : String :=
  "No forecasts found for auction: " ++ auctionDictStr a ++ "!"

/-- Error message of line 111. -/
def noRelevantForecastsMsg (a : AuctionCatalogRow) : String :=
  "No relevant forecasts found for auction: " ++ auctionDictStr a ++ "!"

/-- Body of one iteration of the matching loop (lines 82-129): build the
forecast subset for the entry, fail when it is empty, narrow it to the
auction window, fail when nothing remains, otherwise emit the joined table. -/
def matchSingleAuction (files : AuctionFiles) (forecastDf : List ForecastRow)
    (a : AuctionCatalogRow) : Except String (List MatchedRow) :=
  if (forecastsForAuction forecastDf a.deliveryDate a.idaGroup).isEmpty then
    .error (noForecastsMsg a)
  else if (relevantForecasts files forecastDf a).isEmpty then
    .error (noRelevantForecastsMsg a)
  else
    .ok (joinedRows files forecastDf a)

/-- Rank of a region under the string ordering used by the catalog sort
(DK1 sorts before DK2). -/
def regionRank : Region → Nat
  | .DK1 => 0
  | .DK2 => 1

/-- Rank of an IDA group under the string ordering used by the catalog sort
(IDA1 before IDA2 before IDA3). -/
def idaRank : IdaGroup → Nat
  | .IDA1 => 0
  | .IDA2 => 1
  | .IDA3 => 2

/-- Lexicographic catalog order of line 76: ascending by delivery date, then
region, then IDA group. -/
def catalogOrder (a b : AuctionCatalogRow) : Prop :=
  a.deliveryDate < b.deliveryDate ∨
    (a.deliveryDate = b.deliveryDate ∧
      (regionRank a.region < regionRank b.region ∨
        (regionRank a.region = regionRank b.region ∧
          idaRank a.idaGroup ≤ idaRank b.idaGroup)))

instance : DecidableRel catalogOrder := fun a b => by
  unfold catalogOrder; infer_instance

/-- Pre-filter of line 75: keep only catalog entries whose delivery date
occurs among the forecast horizon-time dates. -/
def auctionsWithForecast (forecastDf : List ForecastRow)
    (catalog : List AuctionCatalogRow) : List AuctionCatalogRow :=
  catalog.filter fun a =>
    (forecastDf.map fun r => dateOf r.time).contains a.deliveryDate

/-- Catalog entries in the order the loop of `match_auction_with_forecast`
processes them (lines 75-76): pre-filtered, then sorted by
(delivery date, region, IDA group). -/
def processOrder (forecastDf : List ForecastRow)
    (catalog : List AuctionCatalogRow) : List AuctionCatalogRow :=
  List.insertionSort catalogOrder (auctionsWithForecast forecastDf catalog)

/-- Sequential processing of the catalog entries: the first failing entry
aborts the whole run (a Python exception unwinds the loop). -/
def processAuctions (files : AuctionFiles) (forecastDf : List ForecastRow) :
    List AuctionCatalogRow → Except String (List (List MatchedRow))
  | [] => .ok []
  | a :: rest =>
      match matchSingleAuction files forecastDf a with
      | .error e => .error e
      | .ok j =>
          match processAuctions files forecastDf rest with
          | .error e => .error e
          | .ok js => .ok (j :: js)

/-- Model of `match_auction_with_forecast` (match_auction_forecast.py lines
50-130): pre-filter and sort the catalog, then process every entry in order,
collecting one joined table per entry or aborting on the first failure. -/
def match_auction_with_forecast (files : AuctionFiles)
    (forecastDf : List ForecastRow) (catalog : List AuctionCatalogRow) :
    Except String (List (List MatchedRow)) :=
  processAuctions files forecastDf (processOrder forecastDf catalog)

/-- Null-compaction of one auction-price column inside a horizon-time group
(match_auction_forecast.py lines 36-39): the non-null values are moved to the
front and the remainder is padded with nulls. -/
def compactColumn (vals : List (Option ℚ)) : List (Option ℚ) :=
  let nonNull := vals.filterMap id
  nonNull.map some ++ List.replicate (vals.length - nonNull.length) none

/-- Column-wise compaction of one horizon-time group (lines 35-39): each of
the two auction-price columns (the columns whose name contains "price" but
not "forecast") is compacted independently; all other columns stay in place. -/
def compactGroup (g : List MatchedRow) : List MatchedRow :=
  let a1 := compactColumn (g.map fun r => r.auctionPriceDK1)
  let a2 := compactColumn (g.map fun r => r.auctionPriceDK2)
  (g.zip (a1.zip a2)).map fun rv =>
    { rv.1 with auctionPriceDK1 := rv.2.1, auctionPriceDK2 := rv.2.2 }

/-- Concatenation, grouping and compaction stage of
`merge_forecast_and_auction_dataframes` (lines 27-40): all per-entry tables
are concatenated, the rows are sorted by `Time`, and each horizon-time group
is compacted column-wise.  The iteration order over the distinct times is the
(unspecified) order of `unique()`; the model uses `dedup` of the concatenated
time column. -/
def mergeGroupedRows (dfs : List (List MatchedRow)) : List MatchedRow :=
  let tmp := dfs.flatten
  let sorted := List.insertionSort (fun a b => a.time ≤ b.time) tmp
  ((tmp.map fun r => r.time).dedup).flatMap fun t =>
    compactGroup (sorted.filter fun r => r.time == t)

/-- Model of `merge_forecast_and_auction_dataframes` (lines 10-47): after
grouping and compaction, rows whose two auction prices are both null are
dropped and the result is sorted ascending by `Time`. -/
def merge_forecast_and_auction_dataframes (dfs : List (List MatchedRow)) :
    List MatchedRow :=
  List.insertionSort (fun a b => a.time ≤ b.time)
    ((mergeGroupedRows dfs).filter fun r =>
      !(r.auctionPriceDK1.isNone && r.auctionPriceDK2.isNone))

/-- Epsilon substituted for a zero auction price in the MAPE denominator
(small_methods.py line 72). -/
def mapeEpsilon : ℚ := 1 / 10000000000

/-- Denominator of one MAPE term (lines 80 and 90): the auction price, with
`mapeEpsilon` substituted exactly when it equals zero. -/
def mapeDivisor (a : ℚ) : ℚ := if a = 0 then mapeEpsilon else a

/-- Null-skipping mean of a column (the polars `mean` aggregate): null
entries are ignored; the mean of an all-null or empty column is null. -/
def meanSkipNulls (l : List (Option ℚ)) : Option ℚ :=
  let v := l.filterMap id
  if v.length = 0 then none else some (v.sum / v.length)

/-- MAE expression for DK1 (small_methods.py line 76): the mean of the
absolute difference between forecast and auction price; the difference is
null where the auction price is null. -/
def maeDK1 (rows : List MatchedRow) : Option ℚ :=
  meanSkipNulls (rows.map fun r =>
    r.auctionPriceDK1.map fun a => |r.dk1ForecastPrice - a|)

/-- MSE expression for DK1 (line 77). -/
def mseDK1 (rows : List MatchedRow) : Option ℚ :=
  meanSkipNulls (rows.map fun r =>
    r.auctionPriceDK1.map fun a => (r.dk1ForecastPrice - a) ^ 2)

/-- Radicand of the RMSE expression for DK1 (line 78): the source recomputes
the squared-difference mean and applies `sqrt` to it; this definition is that
mean, the square root being taken in the claim statement. -/
def rmseRadicandDK1 (rows : List MatchedRow) : Option ℚ :=
  meanSkipNulls (rows.map fun r =>
    r.auctionPriceDK1.map fun a => (r.dk1ForecastPrice - a) ^ 2)

/-- MAPE expression for DK1 (lines 79-81). -/
def mapeDK1 (rows : List MatchedRow) : Option ℚ :=
  meanSkipNulls (rows.map fun r =>
    r.auctionPriceDK1.map fun a => |r.dk1ForecastPrice - a| / mapeDivisor a)

/-- MAE expression for DK2 (line 86). -/
def maeDK2 (rows : List MatchedRow) : Option ℚ :=
  meanSkipNulls (rows.map fun r =>
    r.auctionPriceDK2.map fun a => |r.dk2ForecastPrice - a|)

/-- MSE expression for DK2 (line 87). -/
def mseDK2 (rows : List MatchedRow) : Option ℚ :=
  meanSkipNulls (rows.map fun r =>
    r.auctionPriceDK2.map fun a => (r.dk2ForecastPrice - a) ^ 2)

/-- Radicand of the RMSE expression for DK2 (line 88). -/
def rmseRadicandDK2 (rows : List MatchedRow) : Option ℚ :=
  meanSkipNulls (rows.map fun r =>
    r.auctionPriceDK2.map fun a => (r.dk2ForecastPrice - a) ^ 2)

/-- MAPE expression for DK2 (lines 89-91). -/
def mapeDK2 (rows : List MatchedRow) : Option ℚ :=
  meanSkipNulls (rows.map fun r =>
    r.auctionPriceDK2.map fun a => |r.dk2ForecastPrice - a| / mapeDivisor a)

/-- Model of `compute_forecast_metrics` (small_methods.py lines 55-94): the
two per-region metric tables, each holding MAE, MSE, the RMSE radicand and
MAPE (the RMSE itself is the real square root of the radicand and is related
to these values in the claim about this function). -/
def compute_forecast_metrics (rows : List MatchedRow) :
    (Option ℚ × Option ℚ × Option ℚ × Option ℚ) ×
      (Option ℚ × Option ℚ × Option ℚ × Option ℚ) :=
  ((maeDK1 rows, mseDK1 rows, rmseRadicandDK1 rows, mapeDK1 rows),
   (maeDK2 rows, mseDK2 rows, rmseRadicandDK2 rows, mapeDK2 rows))

/-- Rows of a table that carry a DK1 auction price, paired with that price.
Written from the specification text for the metric claims: the mean runs
over the records where both a forecast and an auction price exist. -/
def specDefinedDK1 (rows : List MatchedRow) : List (MatchedRow × ℚ) :=
  rows.filterMap fun r => r.auctionPriceDK1.map fun a => (r, a)

/-- Rows of a table that carry a DK2 auction price, paired with that price. -/
def specDefinedDK2 (rows : List MatchedRow) : List (MatchedRow × ℚ) :=
  rows.filterMap fun r => r.auctionPriceDK2.map fun a => (r, a)

/-- Specification reading of the DK1 MAE: the mean of the absolute
forecast-minus-auction differences over the defined records. -/
def specMaeDK1 (rows : List MatchedRow) : Option ℚ :=
  let d := specDefinedDK1 rows
  if d.length = 0 then none
  else some (listMean (d.map fun ra => |ra.1.dk1ForecastPrice - ra.2|))

/-- Specification reading of the DK1 MSE. -/
def specMseDK1 (rows : List MatchedRow) : Option ℚ :=
  let d := specDefinedDK1 rows
  if d.length = 0 then none
  else some (listMean (d.map fun ra => (ra.1.dk1ForecastPrice - ra.2) ^ 2))

/-- Specification reading of the DK1 MAPE, with the epsilon substitution at
zero auction prices. -/
def specMapeDK1 (rows : List MatchedRow) : Option ℚ :=
  let d := specDefinedDK1 rows
  if d.length = 0 then none
  else some (listMean (d.map fun ra =>
    |ra.1.dk1ForecastPrice - ra.2| / (if ra.2 = 0 then mapeEpsilon else ra.2)))

/-- Specification reading of the DK2 MAE. -/
def specMaeDK2 (rows : List MatchedRow) : Option ℚ :=
  let d := specDefinedDK2 rows
  if d.length = 0 then none
  else some (listMean (d.map fun ra => |ra.1.dk2ForecastPrice - ra.2|))

/-- Specification reading of the DK2 MSE. -/
def specMseDK2 (rows : List MatchedRow) : Option ℚ :=
  let d := specDefinedDK2 rows
  if d.length = 0 then none
  else some (listMean (d.map fun ra => (ra.1.dk2ForecastPrice - ra.2) ^ 2))

/-- Specification reading of the DK2 MAPE. -/
def specMapeDK2 (rows : List MatchedRow) : Option ℚ :=
  let d := specDefinedDK2 rows
  if d.length = 0 then none
  else some (listMean (d.map fun ra =>
    |ra.1.dk2ForecastPrice - ra.2| / (if ra.2 = 0 then mapeEpsilon else ra.2)))

/-! Helper lemmas. -/

theorem dedup_length_eq_iff {α : Type} [DecidableEq α] (l : List α) :
    l.dedup.length = l.length ↔ l.Nodup := by
  constructor
  · intro h
    exact List.dedup_eq_self.mp ((List.dedup_sublist l).eq_of_length h)
  · intro h
    rw [List.dedup_eq_self.mpr h]

theorem check_unique_iff_nodup (df : List ForecastRow) :
    check_unique_time_ptime_combinations df = true ↔
      (df.map fun r => (r.time, r.ptime)).Nodup := by
  unfold check_unique_time_ptime_combinations
  rw [beq_iff_eq, ← List.length_map df (fun r => (r.time, r.ptime))]
  exact dedup_length_eq_iff _

theorem check_unique_insertionSort (df : List ForecastRow) :
    check_unique_time_ptime_combinations
        (List.insertionSort (fun a b => a.ptime ≤ b.ptime) df) =
      check_unique_time_ptime_combinations df := by
  rw [Bool.eq_iff_iff, check_unique_iff_nodup, check_unique_iff_nodup]
  exact ((List.perm_insertionSort _ df).map _).nodup_iff

theorem filterMap_id_map_option {α : Type} (rows : List α) (ap : α → Option ℚ)
    (f : α → ℚ → ℚ) :
    (rows.map fun r => (ap r).map (f r)).filterMap id =
      (rows.filterMap fun r => (ap r).map fun a => (r, a)).map
        fun ra => f ra.1 ra.2 := by
  induction rows with
  | nil => simp
  | cons h t ih => cases hap : ap h <;> simp [hap, ih]

theorem meanSkipNulls_eq {α : Type} (rows : List α) (ap : α → Option ℚ)
    (f : α → ℚ → ℚ) :
    meanSkipNulls (rows.map fun r => (ap r).map (f r)) =
      (if (rows.filterMap fun r => (ap r).map fun a => (r, a)).length = 0
        then none
        else some (listMean
          ((rows.filterMap fun r => (ap r).map fun a => (r, a)).map
            fun ra => f ra.1 ra.2))) := by
  unfold meanSkipNulls listMean
  rw [filterMap_id_map_option rows ap f]
  simp

theorem compactColumn_length (v : List (Option ℚ)) :
    (compactColumn v).length = v.length := by
  unfold compactColumn
  have h := List.length_filterMap_le id v
  simp only [List.length_append, List.length_map, List.length_replicate]
  omega

theorem compactGroup_length (g : List MatchedRow) :
    (compactGroup g).length = g.length := by
  unfold compactGroup
  simp [compactColumn_length]

theorem compactGroup_getElem (g : List MatchedRow) (i : Nat)
    (h : i < (compactGroup g).length) (hg : i < g.length) :
    (compactGroup g)[i] =
      { g[i] with
        auctionPriceDK1 := (compactColumn (g.map fun r => r.auctionPriceDK1)).get
          ⟨i, by rw [compactColumn_length, List.length_map]; exact hg⟩,
        auctionPriceDK2 := (compactColumn (g.map fun r => r.auctionPriceDK2)).get
          ⟨i, by rw [compactColumn_length, List.length_map]; exact hg⟩ } := by
  unfold compactGroup
  simp only [List.getElem_map, List.getElem_zip, List.get_eq_getElem]

theorem compactGroup_map_time (g : List MatchedRow) :
    (compactGroup g).map (fun r => r.time) = g.map fun r => r.time := by
  apply List.ext_getElem
  · rw [List.length_map, List.length_map, compactGroup_length]
  · intro i h1 h2
    have hg : i < g.length := by
      rw [List.length_map, compactGroup_length] at h1; exact h1
    rw [List.getElem_map, List.getElem_map,
      compactGroup_getElem g i (by rw [compactGroup_length]; exact hg) hg]

theorem compactGroup_map_ap1 (g : List MatchedRow) :
    (compactGroup g).map (fun r => r.auctionPriceDK1) =
      compactColumn (g.map fun r => r.auctionPriceDK1) := by
  apply List.ext_getElem
  · rw [List.length_map, compactGroup_length, compactColumn_length,
      List.length_map]
  · intro i h1 h2
    have hg : i < g.length := by
      rw [List.length_map, compactGroup_length] at h1; exact h1
    rw [List.getElem_map,
      compactGroup_getElem g i (by rw [compactGroup_length]; exact hg) hg]
    exact rfl

theorem compactGroup_map_ap2 (g : List MatchedRow) :
    (compactGroup g).map (fun r => r.auctionPriceDK2) =
      compactColumn (g.map fun r => r.auctionPriceDK2) := by
  apply List.ext_getElem
  · rw [List.length_map, compactGroup_length, compactColumn_length,
      List.length_map]
  · intro i h1 h2
    have hg : i < g.length := by
      rw [List.length_map, compactGroup_length] at h1; exact h1
    rw [List.getElem_map,
      compactGroup_getElem g i (by rw [compactGroup_length]; exact hg) hg]
    exact rfl

theorem mem_compactGroup_time {g : List MatchedRow} {s : Nat}
    (hg : ∀ x ∈ g, x.time = s) {r : MatchedRow} (hr : r ∈ compactGroup g) :
    r.time = s := by
  have : r.time ∈ (compactGroup g).map fun r => r.time := List.mem_map_of_mem _ hr
  rw [compactGroup_map_time] at this
  obtain ⟨x, hx, hxt⟩ := List.mem_map.mp this
  rw [← hxt]
  exact hg x hx

theorem filterMap_id_compactColumn (v : List (Option ℚ)) :
    (compactColumn v).filterMap id = v.filterMap id := by
  unfold compactColumn
  rw [List.filterMap_append, List.filterMap_map, List.filterMap_replicate]
  simp

theorem filterMap_filter_of_none {α β : Type} (l : List α) (p : α → Bool)
    (f : α → Option β) (h : ∀ x ∈ l, p x = false → f x = none) :
    (l.filter p).filterMap f = l.filterMap f := by
  induction l with
  | nil => rfl
  | cons a t ih =>
      have ht : ∀ x ∈ t, p x = false → f x = none := fun x hx => h x (.tail _ hx)
      cases hp : p a with
      | true => simp [List.filter_cons, hp, List.filterMap_cons, ih ht]
      | false =>
          have : f a = none := h a (.head _) hp
          simp [List.filter_cons, hp, List.filterMap_cons, this, ih ht]

theorem keepRow_false_both {r : MatchedRow}
    (h : (!(r.auctionPriceDK1.isNone && r.auctionPriceDK2.isNone)) = false) :
    r.auctionPriceDK1 = none ∧ r.auctionPriceDK2 = none := by
  have h2 : (r.auctionPriceDK1.isNone && r.auctionPriceDK2.isNone) = true := by
    cases hb : (r.auctionPriceDK1.isNone && r.auctionPriceDK2.isNone) with
    | true => rfl
    | false => rw [hb] at h; exact absurd h (by decide)
  rw [Bool.and_eq_true, Option.isNone_iff_eq_none, Option.isNone_iff_eq_none] at h2
  exact h2

theorem keepRow_false_ap1 {r : MatchedRow}
    (h : (!(r.auctionPriceDK1.isNone && r.auctionPriceDK2.isNone)) = false) :
    r.auctionPriceDK1 = none := (keepRow_false_both h).1

theorem keepRow_false_ap2 {r : MatchedRow}
    (h : (!(r.auctionPriceDK1.isNone && r.auctionPriceDK2.isNone)) = false) :
    r.auctionPriceDK2 = none := (keepRow_false_both h).2

theorem compactGroup_kept_filterMap_ap1 (g : List MatchedRow) :
    (((compactGroup g).filter fun r =>
        !(r.auctionPriceDK1.isNone && r.auctionPriceDK2.isNone)).filterMap
      fun r => r.auctionPriceDK1) = g.filterMap fun r => r.auctionPriceDK1 := by
  rw [filterMap_filter_of_none _ _ _ (fun x _ hx => keepRow_false_ap1 hx)]
  have h1 : (compactGroup g).filterMap (fun r => r.auctionPriceDK1) =
      ((compactGroup g).map fun r => r.auctionPriceDK1).filterMap id := by
    rw [List.filterMap_map]; rfl
  have h2 : g.filterMap (fun r => r.auctionPriceDK1) =
      (g.map fun r => r.auctionPriceDK1).filterMap id := by
    rw [List.filterMap_map]; rfl
  rw [h1, h2, compactGroup_map_ap1, filterMap_id_compactColumn]

theorem compactGroup_kept_filterMap_ap2 (g : List MatchedRow) :
    (((compactGroup g).filter fun r =>
        !(r.auctionPriceDK1.isNone && r.auctionPriceDK2.isNone)).filterMap
      fun r => r.auctionPriceDK2) = g.filterMap fun r => r.auctionPriceDK2 := by
  rw [filterMap_filter_of_none _ _ _ (fun x _ hx => keepRow_false_ap2 hx)]
  have h1 : (compactGroup g).filterMap (fun r => r.auctionPriceDK2) =
      ((compactGroup g).map fun r => r.auctionPriceDK2).filterMap id := by
    rw [List.filterMap_map]; rfl
  have h2 : g.filterMap (fun r => r.auctionPriceDK2) =
      (g.map fun r => r.auctionPriceDK2).filterMap id := by
    rw [List.filterMap_map]; rfl
  rw [h1, h2, compactGroup_map_ap2, filterMap_id_compactColumn]

theorem groups_filter_eq_nil {l : List MatchedRow} {times : List Nat}
    {t : Nat} (ht : t ∉ times) :
    ((times.flatMap fun s => compactGroup (l.filter fun r => r.time == s)).filter
      fun r => r.time == t) = [] := by
  induction times with
  | nil => rfl
  | cons s ts ih =>
      have hst : s ≠ t := fun h => ht (h ▸ List.mem_cons_self s ts)
      have hts : t ∉ ts := fun h => ht (List.mem_cons_of_mem _ h)
      rw [List.flatMap_cons, List.filter_append, ih hts, List.append_nil]
      apply List.filter_eq_nil_iff.mpr
      intro r hr
      have : r.time = s := mem_compactGroup_time
        (fun x hx => by simpa using (List.mem_filter.mp hx).2) hr
      simp [this, hst]

theorem groups_filter_eq_group {l : List MatchedRow} {times : List Nat}
    {t : Nat} (hnd : times.Nodup) (ht : t ∈ times) :
    ((times.flatMap fun s => compactGroup (l.filter fun r => r.time == s)).filter
      fun r => r.time == t) = compactGroup (l.filter fun r => r.time == t) := by
  induction times with
  | nil => cases ht
  | cons s ts ih =>
      rw [List.flatMap_cons, List.filter_append]
      rcases List.mem_cons.mp ht with rfl | hts
      · have htts : t ∉ ts := (List.nodup_cons.mp hnd).1
        rw [groups_filter_eq_nil htts, List.append_nil]
        apply List.filter_eq_self.mpr
        intro r hr
        have : r.time = t := mem_compactGroup_time
          (fun x hx => by simpa using (List.mem_filter.mp hx).2) hr
        simp [this]
      · have hst : s ≠ t := by
          rintro rfl
          exact (List.nodup_cons.mp hnd).1 hts
        have h1 : ((compactGroup (l.filter fun r => r.time == s)).filter
            fun r => r.time == t) = [] := by
          apply List.filter_eq_nil_iff.mpr
          intro r hr
          have : r.time = s := mem_compactGroup_time
            (fun x hx => by simpa using (List.mem_filter.mp hx).2) hr
          simp [this, hst]
        rw [h1, List.nil_append]
        exact ih (List.nodup_cons.mp hnd).2 hts

theorem perm_pair_eq {α : Type} {l : List α} {a b : α} (h : l.Perm [a, b]) :
    l = [a, b] ∨ l = [b, a] := by
  have hlen : l.length = 2 := by simpa using h.length_eq
  cases l with
  | nil => simp at hlen
  | cons x t =>
      cases t with
      | nil => simp at hlen
      | cons y t2 =>
          cases t2 with
          | cons z t3 => simp at hlen
          | nil =>
              have hx : x ∈ [a, b] := h.mem_iff.mp (List.mem_cons_self x [y])
              rcases List.mem_cons.mp hx with hxa | hxb
              · subst hxa
                have h2 : [y].Perm [b] := h.cons_inv
                rw [List.perm_singleton.mp h2]
                exact Or.inl rfl
              · have hxb2 : x = b := by simpa using hxb
                subst hxb2
                have hswap : [x, y].Perm [x, a] := h.trans (List.Perm.swap x a [])
                have h2 : [y].Perm [a] := hswap.cons_inv
                rw [List.perm_singleton.mp h2]
                exact Or.inr rfl

theorem merge_filter_time_perm (dfs : List (List MatchedRow)) (t : Nat) :
    ((merge_forecast_and_auction_dataframes dfs).filter fun r => r.time == t).Perm
      (((mergeGroupedRows dfs).filter fun r => r.time == t).filter fun r =>
        !(r.auctionPriceDK1.isNone && r.auctionPriceDK2.isNone)) := by
  unfold merge_forecast_and_auction_dataframes
  have h1 := (List.perm_insertionSort (fun a b : MatchedRow => a.time ≤ b.time)
    ((mergeGroupedRows dfs).filter fun r =>
      !(r.auctionPriceDK1.isNone && r.auctionPriceDK2.isNone))).filter
    (fun r => r.time == t)
  refine h1.trans ?_
  rw [List.filter_filter, List.filter_filter]
  have heq := List.filter_congr
    (fun (x : MatchedRow) (_ : x ∈ mergeGroupedRows dfs) =>
      Bool.and_comm (x.time == t)
        (!(x.auctionPriceDK1.isNone && x.auctionPriceDK2.isNone)))
  rw [heq]

theorem auctionTimedRows_length (raw : List RawAuctionRow) (g : IdaGroup)
    (d : Nat) :
    (auctionTimedRows raw g d).length = (auctionKeptPrices raw).length := by
  simp [auctionTimedRows, List.enum_length]

theorem auctionTimedRows_getElem (raw : List RawAuctionRow) (g : IdaGroup)
    (d : Nat) (i : Nat) (h : i < (auctionTimedRows raw g d).length)
    (h2 : i < (auctionKeptPrices raw).length) :
    (auctionTimedRows raw g d)[i] =
      (auctionStartBase g d + 15 * i, (auctionKeptPrices raw).get ⟨i, h2⟩) := by
  unfold auctionTimedRows
  rw [List.getElem_map, List.getElem_enum]
  simp

theorem mem_auctionTimedRows (raw : List RawAuctionRow) (g : IdaGroup)
    (d : Nat) (r : Nat × ℚ) :
    r ∈ auctionTimedRows raw g d ↔
      ∃ i, ∃ h : i < (auctionKeptPrices raw).length,
        r = (auctionStartBase g d + 15 * i,
          (auctionKeptPrices raw).get ⟨i, h⟩) := by
  rw [List.mem_iff_getElem]
  constructor
  · rintro ⟨i, hi, hr⟩
    have hi2 : i < (auctionKeptPrices raw).length := by
      rw [auctionTimedRows_length] at hi
      exact hi
    refine ⟨i, hi2, ?_⟩
    rw [← hr, auctionTimedRows_getElem raw g d i hi hi2]
  · rintro ⟨i, hi, hr⟩
    have hi2 : i < (auctionTimedRows raw g d).length := by
      rw [auctionTimedRows_length]
      exact hi
    refine ⟨i, hi2, ?_⟩
    rw [auctionTimedRows_getElem raw g d i hi2 hi, hr]

theorem auctionStartBase_hb (g : IdaGroup) (d : Nat) :
    auctionStartBase g d =
      60 * (24 * d + (if g = IdaGroup.IDA3 then 12 else 0)) := by
  unfold auctionStartBase
  split <;> ring

theorem dateOf_eq (t : Nat) : dateOf t = t / 60 / 24 := by
  unfold dateOf
  omega

theorem hourOf_eq (t : Nat) : hourOf t = t / 60 % 24 := by
  unfold hourOf
  omega

theorem bucketKey_eq_iff (s t : Nat) :
    bucketKey s = bucketKey t ↔ s / 60 = t / 60 := by
  simp only [bucketKey, dateOf_eq, hourOf_eq, Prod.mk.injEq]
  omega

theorem timed_key_eq (g : IdaGroup) (d : Nat) (i j : Nat) :
    bucketKey (auctionStartBase g d + 15 * i) =
        bucketKey (auctionStartBase g d + 15 * j) ↔ i / 4 = j / 4 := by
  rw [bucketKey_eq_iff, auctionStartBase_hb]
  generalize 24 * d + (if g = IdaGroup.IDA3 then 12 else 0) = hb
  have h1 : (60 * hb + 15 * i) / 60 = hb + i / 4 := by omega
  have h2 : (60 * hb + 15 * j) / 60 = hb + j / 4 := by omega
  rw [h1, h2]
  omega

theorem minStart_block (raw : List RawAuctionRow) (g : IdaGroup) (d : Nat)
    (κ : Nat × Nat)
    (hκ : κ ∈ (auctionTimedRows raw g d).map fun r => bucketKey r.1) :
    ∃ kb, 4 * kb < (auctionKeptPrices raw).length ∧
      κ = bucketKey (auctionStartBase g d + 60 * kb) ∧
      (((auctionTimedRows raw g d).filter fun r => bucketKey r.1 == κ).map
        fun r => r.1).min? = some (auctionStartBase g d + 60 * kb) := by
  obtain ⟨r, hr, hrk⟩ := List.mem_map.mp hκ
  obtain ⟨j, hj, hrj⟩ := (mem_auctionTimedRows raw g d r).mp hr
  have hr1 : r.1 = auctionStartBase g d + 15 * j := by rw [hrj]
  have h60 : auctionStartBase g d + 60 * (j / 4) =
      auctionStartBase g d + 15 * (4 * (j / 4)) := by ring_nf
  have hkey : κ = bucketKey (auctionStartBase g d + 60 * (j / 4)) := by
    rw [← hrk, hr1, h60]
    exact (timed_key_eq g d j (4 * (j / 4))).mpr (by omega)
  refine ⟨j / 4, by omega, hkey, ?_⟩
  apply List.min?_eq_some_iff'.mpr
  constructor
  · apply List.mem_map.mpr
    have hb4 : 4 * (j / 4) < (auctionKeptPrices raw).length := by omega
    refine ⟨(auctionStartBase g d + 15 * (4 * (j / 4)),
      (auctionKeptPrices raw).get ⟨4 * (j / 4), hb4⟩), ?_, by omega⟩
    apply List.mem_filter.mpr
    constructor
    · exact (mem_auctionTimedRows raw g d _).mpr ⟨4 * (j / 4), hb4, rfl⟩
    · apply beq_iff_eq.mpr
      rw [hkey, h60]
  · intro b hb
    obtain ⟨x, hxf, hxb⟩ := List.mem_map.mp hb
    obtain ⟨hxt, hxk⟩ := List.mem_filter.mp hxf
    obtain ⟨i, hi, hxi⟩ := (mem_auctionTimedRows raw g d x).mp hxt
    have hx1 : x.1 = auctionStartBase g d + 15 * i := by rw [hxi]
    have hik : i / 4 = j / 4 := by
      have hkx : bucketKey x.1 = κ := beq_iff_eq.mp hxk
      rw [hx1, ← hrk, hr1] at hkx
      exact (timed_key_eq g d i j).mp hkx
    rw [← hxb, hx1]
    omega

theorem nodup_fst_unique {α β : Type} {l : List (α × β)}
    (h : (l.map Prod.fst).Nodup) {s : α} {a b : β}
    (ha : (s, a) ∈ l) (hb : (s, b) ∈ l) : a = b := by
  induction l with
  | nil => cases ha
  | cons x t ih =>
      rw [List.map_cons] at h
      have hnd := List.nodup_cons.mp h
      rcases List.mem_cons.mp ha with hax | ha2
      · rcases List.mem_cons.mp hb with hbx | hb2
        · rw [← hax] at hbx
          exact (Prod.mk.injEq _ _ _ _ ▸ hbx.symm).2
        · exfalso
          apply hnd.1
          apply List.mem_map.mpr
          refine ⟨(s, b), hb2, ?_⟩
          rw [← hax]
      · rcases List.mem_cons.mp hb with hbx | hb2
        · exfalso
          apply hnd.1
          apply List.mem_map.mpr
          refine ⟨(s, a), ha2, ?_⟩
          rw [← hbx]
        · exact ih hnd.2 ha2 hb2

theorem read_single_eq (raw : List RawAuctionRow) (g : IdaGroup) (d : Nat) :
    read_single_auction_file raw g d =
      List.insertionSort (fun a b => a.1 ≤ b.1)
        ((((auctionTimedRows raw g d).map fun r => bucketKey r.1).dedup).map
          fun k =>
            ((((auctionTimedRows raw g d).filter
                fun r => bucketKey r.1 == k).map fun r => r.1).min?.getD 0,
             listMean (((auctionTimedRows raw g d).filter
                fun r => bucketKey r.1 == k).map fun r => r.2))) := rfl

theorem read_single_starts_nodup (raw : List RawAuctionRow) (g : IdaGroup)
    (d : Nat) :
    ((read_single_auction_file raw g d).map fun r => r.1).Nodup := by
  rw [read_single_eq]
  apply ((List.perm_insertionSort _ _).map
    fun r => (r : Nat × ℚ).1).nodup_iff.mpr
  rw [List.map_map]
  apply List.Nodup.map_on ?_ (List.nodup_dedup _)
  intro κ1 h1 κ2 h2 heq
  obtain ⟨kb1, hb1, hk1, hm1⟩ := minStart_block raw g d κ1 (List.mem_dedup.mp h1)
  obtain ⟨kb2, hb2, hk2, hm2⟩ := minStart_block raw g d κ2 (List.mem_dedup.mp h2)
  simp only [Function.comp_apply] at heq
  rw [hm1, hm2] at heq
  simp only [Option.getD_some] at heq
  rw [hk1, hk2]
  have hkb : kb1 = kb2 := by omega
  rw [hkb]

theorem list_eq_four {α : Type} {l : List α} (h : l.length = 4) :
    l = [l.get ⟨0, by omega⟩, l.get ⟨1, by omega⟩, l.get ⟨2, by omega⟩,
      l.get ⟨3, by omega⟩] := by
  match l, h with
  | [a, b, c, d], _ => rfl

theorem timed_beq_key_iff (raw : List RawAuctionRow) (g : IdaGroup) (d : Nat)
    (kb : Nat) (i : Nat) (hi : i < (auctionTimedRows raw g d).length) :
    ((bucketKey ((auctionTimedRows raw g d).get ⟨i, hi⟩).1 ==
        bucketKey (auctionStartBase g d + 60 * kb)) = true ↔ i / 4 = kb) := by
  have hi2 : i < (auctionKeptPrices raw).length := by
    rw [auctionTimedRows_length] at hi
    exact hi
  rw [List.get_eq_getElem, auctionTimedRows_getElem raw g d i hi hi2]
  have h60 : auctionStartBase g d + 60 * kb =
      auctionStartBase g d + 15 * (4 * kb) := by ring
  rw [beq_iff_eq, h60, timed_key_eq]
  omega

theorem members_of_full_block (raw : List RawAuctionRow) (g : IdaGroup)
    (d : Nat) (kb : Nat) (h : 4 * kb + 3 < (auctionKeptPrices raw).length) :
    ((auctionTimedRows raw g d).filter
        fun r => bucketKey r.1 == bucketKey (auctionStartBase g d + 60 * kb)) =
      [(auctionTimedRows raw g d).get ⟨4 * kb, by
          rw [auctionTimedRows_length]; omega⟩,
       (auctionTimedRows raw g d).get ⟨4 * kb + 1, by
          rw [auctionTimedRows_length]; omega⟩,
       (auctionTimedRows raw g d).get ⟨4 * kb + 2, by
          rw [auctionTimedRows_length]; omega⟩,
       (auctionTimedRows raw g d).get ⟨4 * kb + 3, by
          rw [auctionTimedRows_length]; omega⟩] := by
  have hlen : (auctionTimedRows raw g d).length =
      (auctionKeptPrices raw).length := auctionTimedRows_length raw g d
  conv_lhs => rw [← List.take_append_drop (4 * kb) (auctionTimedRows raw g d),
    ← List.take_append_drop 4 (List.drop (4 * kb) (auctionTimedRows raw g d))]
  rw [List.filter_append, List.filter_append]
  have hA : (List.take (4 * kb) (auctionTimedRows raw g d)).filter
      (fun r => bucketKey r.1 ==
        bucketKey (auctionStartBase g d + 60 * kb)) = [] := by
    apply List.filter_eq_nil_iff.mpr
    intro x hx hpx
    obtain ⟨i, hi, hxe⟩ := List.mem_iff_getElem.mp hx
    have hi4 : i < 4 * kb := by
      have := hi
      rw [List.length_take] at this
      omega
    have hit : i < (auctionTimedRows raw g d).length := by omega
    rw [List.getElem_take] at hxe
    rw [← hxe] at hpx
    have := (timed_beq_key_iff raw g d kb i hit).mp (by
      rw [List.get_eq_getElem]; exact hpx)
    omega
  have hC : (List.drop 4 (List.drop (4 * kb) (auctionTimedRows raw g d))).filter
      (fun r => bucketKey r.1 ==
        bucketKey (auctionStartBase g d + 60 * kb)) = [] := by
    apply List.filter_eq_nil_iff.mpr
    intro x hx hpx
    obtain ⟨m, hm, hxe⟩ := List.mem_iff_getElem.mp hx
    have hmlen : 4 * kb + (4 + m) < (auctionTimedRows raw g d).length := by
      rw [List.length_drop, List.length_drop] at hm
      omega
    rw [List.getElem_drop, List.getElem_drop] at hxe
    rw [← hxe] at hpx
    have := (timed_beq_key_iff raw g d kb (4 * kb + (4 + m)) hmlen).mp (by
      rw [List.get_eq_getElem]; exact hpx)
    omega
  have hB : (List.take 4 (List.drop (4 * kb) (auctionTimedRows raw g d))).filter
      (fun r => bucketKey r.1 ==
        bucketKey (auctionStartBase g d + 60 * kb)) =
      List.take 4 (List.drop (4 * kb) (auctionTimedRows raw g d)) := by
    apply List.filter_eq_self.mpr
    intro x hx
    obtain ⟨m, hm, hxe⟩ := List.mem_iff_getElem.mp hx
    have hm4 : m < 4 := by
      rw [List.length_take] at hm
      omega
    have hmlen : 4 * kb + m < (auctionTimedRows raw g d).length := by omega
    rw [List.getElem_take, List.getElem_drop] at hxe
    rw [← hxe]
    apply (timed_beq_key_iff raw g d kb (4 * kb + m) hmlen).mpr (by omega)
  rw [hA, hB, hC, List.nil_append, List.append_nil]
  have hBlen : (List.take 4 (List.drop (4 * kb)
      (auctionTimedRows raw g d))).length = 4 := by
    rw [List.length_take, List.length_drop]
    omega
  rw [list_eq_four hBlen]
  simp only [List.get_eq_getElem, List.getElem_take, List.getElem_drop]
  norm_num

theorem compactGroup_pair (x y : MatchedRow) (v1 v2 : ℚ)
    (h1 : x.auctionPriceDK1 = some v1 ∧ y.auctionPriceDK1 = none ∨
      x.auctionPriceDK1 = none ∧ y.auctionPriceDK1 = some v1)
    (h2 : x.auctionPriceDK2 = some v2 ∧ y.auctionPriceDK2 = none ∨
      x.auctionPriceDK2 = none ∧ y.auctionPriceDK2 = some v2) :
    compactGroup [x, y] =
      [{ x with auctionPriceDK1 := some v1, auctionPriceDK2 := some v2 },
       { y with auctionPriceDK1 := none, auctionPriceDK2 := none }] := by
  rcases h1 with ⟨ha, hb⟩ | ⟨ha, hb⟩ <;> rcases h2 with ⟨hc, hd⟩ | ⟨hc, hd⟩ <;>
    simp [compactGroup, compactColumn, ha, hb, hc, hd]

theorem merged_ap1_at (dfs : List (List MatchedRow)) (t : Nat) :
    (((merge_forecast_and_auction_dataframes dfs).filter
        fun r => r.time == t).filterMap fun r => r.auctionPriceDK1).Perm
      ((dfs.flatten.filter fun r => r.time == t).filterMap
        fun r => r.auctionPriceDK1) := by
  have hmf := (merge_filter_time_perm dfs t).filterMap fun r => r.auctionPriceDK1
  refine hmf.trans ?_
  by_cases hT : t ∈ (dfs.flatten.map fun r => r.time).dedup
  · have hgrouped : (mergeGroupedRows dfs).filter (fun r => r.time == t) =
        compactGroup ((List.insertionSort (fun a b => a.time ≤ b.time)
          dfs.flatten).filter fun r => r.time == t) := by
      have := groups_filter_eq_group
        (l := List.insertionSort (fun a b => a.time ≤ b.time) dfs.flatten)
        (List.nodup_dedup _) hT
      simpa only [mergeGroupedRows] using this
    rw [hgrouped, compactGroup_kept_filterMap_ap1]
    exact ((List.perm_insertionSort _ dfs.flatten).filter _).filterMap _
  · have hgrouped : (mergeGroupedRows dfs).filter (fun r => r.time == t) = [] := by
      have := groups_filter_eq_nil
        (l := List.insertionSort (fun a b => a.time ≤ b.time) dfs.flatten) hT
      simpa only [mergeGroupedRows] using this
    have hnil : dfs.flatten.filter (fun r => r.time == t) = [] := by
      apply List.filter_eq_nil_iff.mpr
      intro r hr hrt
      exact hT (List.mem_dedup.mpr
        (List.mem_map.mpr ⟨r, hr, by simpa using hrt⟩))
    rw [hgrouped, hnil]
    simp

theorem merged_ap2_at (dfs : List (List MatchedRow)) (t : Nat) :
    (((merge_forecast_and_auction_dataframes dfs).filter
        fun r => r.time == t).filterMap fun r => r.auctionPriceDK2).Perm
      ((dfs.flatten.filter fun r => r.time == t).filterMap
        fun r => r.auctionPriceDK2) := by
  have hmf := (merge_filter_time_perm dfs t).filterMap fun r => r.auctionPriceDK2
  refine hmf.trans ?_
  by_cases hT : t ∈ (dfs.flatten.map fun r => r.time).dedup
  · have hgrouped : (mergeGroupedRows dfs).filter (fun r => r.time == t) =
        compactGroup ((List.insertionSort (fun a b => a.time ≤ b.time)
          dfs.flatten).filter fun r => r.time == t) := by
      have := groups_filter_eq_group
        (l := List.insertionSort (fun a b => a.time ≤ b.time) dfs.flatten)
        (List.nodup_dedup _) hT
      simpa only [mergeGroupedRows] using this
    rw [hgrouped, compactGroup_kept_filterMap_ap2]
    exact ((List.perm_insertionSort _ dfs.flatten).filter _).filterMap _
  · have hgrouped : (mergeGroupedRows dfs).filter (fun r => r.time == t) = [] := by
      have := groups_filter_eq_nil
        (l := List.insertionSort (fun a b => a.time ≤ b.time) dfs.flatten) hT
      simpa only [mergeGroupedRows] using this
    have hnil : dfs.flatten.filter (fun r => r.time == t) = [] := by
      apply List.filter_eq_nil_iff.mpr
      intro r hr hrt
      exact hT (List.mem_dedup.mpr
        (List.mem_map.mpr ⟨r, hr, by simpa using hrt⟩))
    rw [hgrouped, hnil]
    simp

theorem filter_eq_of_nodup_fst (l : List (Nat × ℚ))
    (hnd : (l.map Prod.fst).Nodup) (c : Nat) :
    l.filter (fun x => x.1 == c) =
      (match l.find? (fun x => x.1 == c) with
        | some x => [x]
        | none => []) := by
  induction l with
  | nil => rfl
  | cons a t ih =>
      rw [List.map_cons] at hnd
      have hnd2 := List.nodup_cons.mp hnd
      cases h : (a.1 == c) with
      | true =>
          have ht : t.filter (fun x => x.1 == c) = [] := by
            apply List.filter_eq_nil_iff.mpr
            intro x hx hpx
            apply hnd2.1
            apply List.mem_map.mpr
            refine ⟨x, hx, ?_⟩
            have h1 : a.1 = c := beq_iff_eq.mp h
            have h2 : x.1 = c := beq_iff_eq.mp hpx
            rw [h1, h2]
          simp only [List.filter_cons, List.find?_cons, h, if_true, ht]
      | false =>
          simp only [List.filter_cons, List.find?_cons, h, if_false]
          exact ih hnd2.2

theorem auctionDfRelevant_sublist (files : AuctionFiles)
    (fdf : List ForecastRow) (a : AuctionCatalogRow) :
    (auctionDfRelevant files fdf a).Sublist (auctionDfOf files a) := by
  unfold auctionDfRelevant
  dsimp only
  split
  · exact List.filter_sublist _
  · exact List.nil_sublist _

theorem auctionDfRelevant_nodup_fst (files : AuctionFiles)
    (fdf : List ForecastRow) (a : AuctionCatalogRow) :
    ((auctionDfRelevant files fdf a).map Prod.fst).Nodup := by
  apply List.Nodup.sublist
    (List.Sublist.map Prod.fst (auctionDfRelevant_sublist files fdf a))
  exact read_single_starts_nodup (files a.filepath) a.idaGroup a.deliveryDate

theorem flatMap_singletons {α β : Type} (l : List α) (f : α → List β)
    (g : α → β) (h : ∀ x ∈ l, f x = [g x]) : l.flatMap f = l.map g := by
  induction l with
  | nil => rfl
  | cons a t ih =>
      rw [List.flatMap_cons, List.map_cons, h a (.head _),
        ih fun x hx => h x (.tail _ hx)]
      rfl

theorem joinedRows_eq (files : AuctionFiles) (fdf : List ForecastRow)
    (a : AuctionCatalogRow) :
    joinedRows files fdf a = (relevantForecasts files fdf a).map fun f =>
      tagRow a f (((auctionDfRelevant files fdf a).find?
        fun x => x.1 == f.time).map fun x => x.2) := by
  unfold joinedRows
  apply flatMap_singletons
  intro f _
  rw [filter_eq_of_nodup_fst _ (auctionDfRelevant_nodup_fst files fdf a) f.time]
  cases hfind : (auctionDfRelevant files fdf a).find? (fun x => x.1 == f.time) with
  | none => simp
  | some x => simp

theorem matchSingle_error_of_empty (files : AuctionFiles)
    (fdf : List ForecastRow) (a : AuctionCatalogRow)
    (hfa : forecastsForAuction fdf a.deliveryDate a.idaGroup = []) :
    matchSingleAuction files fdf a = .error (noForecastsMsg a) := by
  unfold matchSingleAuction
  rw [if_pos (by rw [hfa]; rfl)]

theorem processAuctions_error_of_mem (files : AuctionFiles)
    (fdf : List ForecastRow) (l : List AuctionCatalogRow)
    (h : ∃ a ∈ l, forecastsForAuction fdf a.deliveryDate a.idaGroup = []) :
    ∃ msg, processAuctions files fdf l = .error msg := by
  induction l with
  | nil => simp at h
  | cons c rest ih =>
      obtain ⟨a, ha, hfa⟩ := h
      rcases List.mem_cons.mp ha with rfl | harest
      · refine ⟨noForecastsMsg a, ?_⟩
        simp only [processAuctions, matchSingle_error_of_empty files fdf a hfa]
      · cases hm : matchSingleAuction files fdf c with
        | error e =>
            refine ⟨e, ?_⟩
            simp only [processAuctions, hm]
        | ok j =>
            obtain ⟨msg, hmsg⟩ := ih ⟨a, harest, hfa⟩
            refine ⟨msg, ?_⟩
            simp only [processAuctions, hm, hmsg]

theorem processAuctions_first_error (files : AuctionFiles)
    (fdf : List ForecastRow) (pre post : List AuctionCatalogRow)
    (a : AuctionCatalogRow) (m : String)
    (hpre : ∀ b ∈ pre, ∃ jb, matchSingleAuction files fdf b = .ok jb)
    (herr : matchSingleAuction files fdf a = .error m) :
    processAuctions files fdf (pre ++ a :: post) = .error m := by
  induction pre with
  | nil =>
      simp only [List.nil_append, processAuctions, herr]
  | cons b pre2 ih =>
      obtain ⟨jb, hjb⟩ := hpre b (.head _)
      rw [List.cons_append]
      simp only [processAuctions, hjb,
        ih fun x hx => hpre x (.tail _ hx)]

/-! Claim theorems. -/

/-- C3 counterexample: a catalog entry whose delivery date (day 5) has zero
forecasts at the required issuance hour is silently dropped by the
pre-filter of line 75 (its delivery date does not occur among the forecast
horizon dates), so the pipeline returns an empty ok-result instead of
aborting. -/
theorem claim_fatal_path_counterexample :
    forecastsForAuction [⟨14400, 0, 1, 2⟩] 5 IdaGroup.IDA1 = [] ∧
    match_auction_with_forecast (fun _ => []) [⟨14400, 0, 1, 2⟩]
      [⟨"g1", Region.DK1, IdaGroup.IDA1, 5⟩] = .ok [] := by
  constructor
  · decide
  · rfl

/-- C3 amended: among the catalog entries that survive the pre-filter of
line 75 (delivery date present among the forecast horizon dates) and are
processed in catalog order, an entry with zero forecasts at the required
issuance hour makes the pipeline return an error rather than any ok-result;
and when every entry before it succeeds, the error is exactly the
no-forecasts message naming that entry (file path, region, group, delivery
date).  Entries removed by the pre-filter are skipped silently. -/
theorem claim_fatal_path_amended (files : AuctionFiles)
    (fdf : List ForecastRow) (catalog : List AuctionCatalogRow) :
    ((∃ a ∈ processOrder fdf catalog,
        forecastsForAuction fdf a.deliveryDate a.idaGroup = []) →
      ∃ msg, match_auction_with_forecast files fdf catalog = .error msg) ∧
    (∀ pre a post, processOrder fdf catalog = pre ++ a :: post →
      (∀ b ∈ pre, ∃ jb, matchSingleAuction files fdf b = .ok jb) →
      forecastsForAuction fdf a.deliveryDate a.idaGroup = [] →
      match_auction_with_forecast files fdf catalog =
        .error (noForecastsMsg a)) := by
  constructor
  · intro h
    exact processAuctions_error_of_mem files fdf _ h
  · intro pre a post hdecomp hpre hfa
    unfold match_auction_with_forecast
    rw [hdecomp]
    exact processAuctions_first_error files fdf pre post a _ hpre
      (matchSingle_error_of_empty files fdf a hfa)

/-- Witness for C3 at a concrete input: one catalog entry for delivery day 5
whose date occurs among the forecast horizon dates but has no forecast issued
at hour 15; the pipeline returns exactly its no-forecasts error. -/
theorem claim_fatal_path_amended_witness :
    (∃ msg, match_auction_with_forecast (fun _ => []) [⟨7200, 0, 1, 2⟩]
      [⟨"g1", Region.DK1, IdaGroup.IDA1, 5⟩] = .error msg) ∧
    match_auction_with_forecast (fun _ => []) [⟨7200, 0, 1, 2⟩]
      [⟨"g1", Region.DK1, IdaGroup.IDA1, 5⟩] =
        .error (noForecastsMsg ⟨"g1", Region.DK1, IdaGroup.IDA1, 5⟩) :=
  ⟨(claim_fatal_path_amended (fun _ => []) [⟨7200, 0, 1, 2⟩]
      [⟨"g1", Region.DK1, IdaGroup.IDA1, 5⟩]).1 (by decide),
   (claim_fatal_path_amended (fun _ => []) [⟨7200, 0, 1, 2⟩]
      [⟨"g1", Region.DK1, IdaGroup.IDA1, 5⟩]).2 [] _ [] (by decide)
      (by simp) (by decide)⟩

/-- C1: when the concatenated per-entry tables contain exactly two rows at a
horizon time T, one carrying only a DK1 auction price and the other only a
DK2 auction price, the merged output has exactly one row at T and it carries
both prices; neither value is overwritten by the other row's null. -/
theorem claim_merge_nondestructive (dfs : List (List MatchedRow)) (T : Nat)
    (v1 v2 : ℚ) (r1 r2 : MatchedRow)
    (h1t : r1.time = T) (h11 : r1.auctionPriceDK1 = some v1)
    (h12 : r1.auctionPriceDK2 = none)
    (h2t : r2.time = T) (h21 : r2.auctionPriceDK1 = none)
    (h22 : r2.auctionPriceDK2 = some v2)
    (hg : dfs.flatten.filter (fun r => r.time == T) = [r1, r2] ∨
      dfs.flatten.filter (fun r => r.time == T) = [r2, r1]) :
    ∃ r, ((merge_forecast_and_auction_dataframes dfs).filter
        fun r => r.time == T) = [r] ∧
      r.time = T ∧ r.auctionPriceDK1 = some v1 ∧ r.auctionPriceDK2 = some v2 := by
  have hr1tmp : r1 ∈ dfs.flatten := by
    rcases hg with hgL | hgR
    · have hmem : r1 ∈ dfs.flatten.filter fun r => r.time == T := by
        rw [hgL]; exact List.mem_cons_self _ _
      exact (List.mem_filter.mp hmem).1
    · have hmem : r1 ∈ dfs.flatten.filter fun r => r.time == T := by
        rw [hgR]; exact List.mem_cons_of_mem _ (List.mem_cons_self _ _)
      exact (List.mem_filter.mp hmem).1
  have hT : T ∈ (dfs.flatten.map fun r => r.time).dedup :=
    List.mem_dedup.mpr (List.mem_map.mpr ⟨r1, hr1tmp, h1t⟩)
  have hgrouped : (mergeGroupedRows dfs).filter (fun r => r.time == T) =
      compactGroup ((List.insertionSort (fun a b => a.time ≤ b.time)
        dfs.flatten).filter fun r => r.time == T) := by
    have := groups_filter_eq_group
      (l := List.insertionSort (fun a b => a.time ≤ b.time) dfs.flatten)
      (List.nodup_dedup _) hT
    simpa only [mergeGroupedRows] using this
  have hpermf : ((List.insertionSort (fun a b => a.time ≤ b.time)
      dfs.flatten).filter fun r => r.time == T).Perm
        (dfs.flatten.filter fun r => r.time == T) :=
    (List.perm_insertionSort _ _).filter _
  have hgroup : ((List.insertionSort (fun a b => a.time ≤ b.time)
      dfs.flatten).filter fun r => r.time == T) = [r1, r2] ∨
      ((List.insertionSort (fun a b => a.time ≤ b.time)
        dfs.flatten).filter fun r => r.time == T) = [r2, r1] := by
    rcases hg with hgL | hgR
    · rw [hgL] at hpermf
      exact perm_pair_eq hpermf
    · rw [hgR] at hpermf
      exact (perm_pair_eq hpermf).symm
  have hmf := merge_filter_time_perm dfs T
  rw [hgrouped] at hmf
  rcases hgroup with hG | hG
  · rw [hG, compactGroup_pair r1 r2 v1 v2 (Or.inl ⟨h11, h21⟩)
      (Or.inr ⟨h12, h22⟩)] at hmf
    have hfilter : (List.filter (fun r =>
        !(r.auctionPriceDK1.isNone && r.auctionPriceDK2.isNone))
          [{ r1 with auctionPriceDK1 := some v1, auctionPriceDK2 := some v2 },
           { r2 with auctionPriceDK1 := none, auctionPriceDK2 := none }]) =
        [{ r1 with auctionPriceDK1 := some v1, auctionPriceDK2 := some v2 }] := by
      simp [List.filter]
    rw [hfilter] at hmf
    exact ⟨_, List.perm_singleton.mp hmf, by simpa using h1t, rfl, rfl⟩
  · rw [hG, compactGroup_pair r2 r1 v1 v2 (Or.inr ⟨h21, h11⟩)
      (Or.inl ⟨h22, h12⟩)] at hmf
    have hfilter : (List.filter (fun r =>
        !(r.auctionPriceDK1.isNone && r.auctionPriceDK2.isNone))
          [{ r2 with auctionPriceDK1 := some v1, auctionPriceDK2 := some v2 },
           { r1 with auctionPriceDK1 := none, auctionPriceDK2 := none }]) =
        [{ r2 with auctionPriceDK1 := some v1, auctionPriceDK2 := some v2 }] := by
      simp [List.filter]
    rw [hfilter] at hmf
    exact ⟨_, List.perm_singleton.mp hmf, by simpa using h2t, rfl, rfl⟩

/-- Witness for C1 at a concrete input: two one-row tables at time 100, one
with only a DK1 price 5, the other with only a DK2 price 7. -/
theorem claim_merge_nondestructive_witness :
    ∃ r, ((merge_forecast_and_auction_dataframes
        [[⟨100, 40, 1, 2, some 5, none, IdaGroup.IDA1, Region.DK1, "a"⟩],
         [⟨100, 40, 1, 2, none, some 7, IdaGroup.IDA1, Region.DK2, "b"⟩]]).filter
        fun r => r.time == 100) = [r] ∧
      r.time = 100 ∧ r.auctionPriceDK1 = some 5 ∧ r.auctionPriceDK2 = some 7 :=
  claim_merge_nondestructive _ 100 5 7
    ⟨100, 40, 1, 2, some 5, none, IdaGroup.IDA1, Region.DK1, "a"⟩
    ⟨100, 40, 1, 2, none, some 7, IdaGroup.IDA1, Region.DK2, "b"⟩
    rfl rfl rfl rfl rfl rfl (Or.inl (by decide))

/-- C4 counterexample: permuting the list of per-entry tables does not, in
general, preserve the merged output as a row set.  The two tables share time
100; whichever row sorts first inside the group keeps its non-price payload
(region, source filepath), so the two orders give different full rows. -/
theorem claim_merger_order_counterexample :
    ([[⟨100, 40, 1, 2, some 5, none, IdaGroup.IDA1, Region.DK1, "a"⟩],
      [⟨100, 40, 1, 2, none, some 7, IdaGroup.IDA1, Region.DK2, "b"⟩]] :
        List (List MatchedRow)).Perm
      [[⟨100, 40, 1, 2, none, some 7, IdaGroup.IDA1, Region.DK2, "b"⟩],
       [⟨100, 40, 1, 2, some 5, none, IdaGroup.IDA1, Region.DK1, "a"⟩]] ∧
    ¬ (merge_forecast_and_auction_dataframes
        [[⟨100, 40, 1, 2, some 5, none, IdaGroup.IDA1, Region.DK1, "a"⟩],
         [⟨100, 40, 1, 2, none, some 7, IdaGroup.IDA1, Region.DK2, "b"⟩]]).Perm
      (merge_forecast_and_auction_dataframes
        [[⟨100, 40, 1, 2, none, some 7, IdaGroup.IDA1, Region.DK2, "b"⟩],
         [⟨100, 40, 1, 2, some 5, none, IdaGroup.IDA1, Region.DK1, "a"⟩]]) := by
  constructor
  · exact List.Perm.swap _ _ _
  · decide

/-- C4 amended: the Merger is a deterministic function of its input list, and
permuting the list preserves, for every horizon time, the multiset of
non-null values of each auction-price column of the output; the full output
rows need not coincide because the surviving row of a group keeps the
non-price payload of whichever input row sorted first. -/
theorem claim_merger_order_amended (dfs dfs2 : List (List MatchedRow))
    (hperm : dfs.Perm dfs2) (t : Nat) :
    (((merge_forecast_and_auction_dataframes dfs).filter
        fun r => r.time == t).filterMap fun r => r.auctionPriceDK1).Perm
      (((merge_forecast_and_auction_dataframes dfs2).filter
        fun r => r.time == t).filterMap fun r => r.auctionPriceDK1) ∧
    (((merge_forecast_and_auction_dataframes dfs).filter
        fun r => r.time == t).filterMap fun r => r.auctionPriceDK2).Perm
      (((merge_forecast_and_auction_dataframes dfs2).filter
        fun r => r.time == t).filterMap fun r => r.auctionPriceDK2) := by
  have hflat : dfs.flatten.Perm dfs2.flatten := hperm.flatten
  constructor
  · exact (merged_ap1_at dfs t).trans
      (((hflat.filter _).filterMap _).trans (merged_ap1_at dfs2 t).symm)
  · exact (merged_ap2_at dfs t).trans
      (((hflat.filter _).filterMap _).trans (merged_ap2_at dfs2 t).symm)

/-- C10: every start time output by `read_single_auction_file` lies exactly
on an hour boundary: the 15-minute sequence is assigned after null-row
dropping starting at hour 0 (hour 12 for IDA3) of the delivery date, so the
minimum interval start of every hourly bucket is the :00 interval.  This
alignment is what lets the hour-granular equality join of the Matcher find
matches at all. -/
theorem claim_hour_alignment (raw : List RawAuctionRow) (g : IdaGroup)
    (d : Nat) (r : Nat × ℚ) (hr : r ∈ read_single_auction_file raw g d) :
    minuteOf r.1 = 0 := by
  rw [read_single_eq, List.mem_insertionSort] at hr
  obtain ⟨κ, hκ, hrow⟩ := List.mem_map.mp hr
  obtain ⟨kb, hkb, hkey, hmin⟩ := minStart_block raw g d κ (List.mem_dedup.mp hκ)
  have h1 : r.1 = auctionStartBase g d + 60 * kb := by
    rw [← hrow]
    dsimp only
    rw [hmin]
    rfl
  rw [h1, minuteOf, auctionStartBase_hb]
  generalize 24 * d + (if g = IdaGroup.IDA3 then 12 else 0) = hb
  omega

/-- Witness for C10 at a concrete four-interval IDA1 file on day 0: the
single output row starts at minute 0, an hour boundary. -/
theorem claim_hour_alignment_witness :
    ((0 : Nat), (25 : ℚ)) ∈ read_single_auction_file
        [⟨some "q1", some 10⟩, ⟨some "q2", some 20⟩,
         ⟨some "q3", some 30⟩, ⟨some "q4", some 40⟩] IdaGroup.IDA1 0 ∧
      minuteOf 0 = 0 := by
  have hbase : auctionStartBase IdaGroup.IDA1 0 = 0 := by decide
  have heval : read_single_auction_file
      [⟨some "q1", some 10⟩, ⟨some "q2", some 20⟩,
       ⟨some "q3", some 30⟩, ⟨some "q4", some 40⟩] IdaGroup.IDA1 0 =
      [(0, 25)] := by
    norm_num [read_single_auction_file, auctionTimedRows, auctionKeptPrices,
      hbase, bucketKey, dateOf, hourOf, listMean, List.enum, List.enumFrom,
      List.insertionSort, List.orderedInsert, List.filterMap, List.min?]
  have hmem : ((0 : Nat), (25 : ℚ)) ∈ read_single_auction_file
      [⟨some "q1", some 10⟩, ⟨some "q2", some 20⟩,
       ⟨some "q3", some 30⟩, ⟨some "q4", some 40⟩] IdaGroup.IDA1 0 := by
    rw [heval]
    exact List.mem_cons_self _ _
  exact ⟨hmem, claim_hour_alignment _ _ _ _ hmem⟩

/-- C7: when the kept 15-minute rows of an auction file hold the prices
10, 20, 30, 40 at positions 4k .. 4k+3 (the four intervals of the hour of
the delivery date that starts at minute `auctionStartBase g d + 60 * k`,
written as hour H of day d), the hourly output contains a row starting at
H:00 with price 25, that start time occurs exactly once, and in general
every output row carries the mean price of its (date, hour) bucket and the
minimum interval start of that bucket. -/
theorem claim_hourly_aggregation (raw : List RawAuctionRow) (g : IdaGroup)
    (d kb H : Nat)
    (hkb : 4 * kb + 3 < (auctionKeptPrices raw).length)
    (h10 : (auctionKeptPrices raw).get ⟨4 * kb, by omega⟩ = 10)
    (h20 : (auctionKeptPrices raw).get ⟨4 * kb + 1, by omega⟩ = 20)
    (h30 : (auctionKeptPrices raw).get ⟨4 * kb + 2, by omega⟩ = 30)
    (h40 : (auctionKeptPrices raw).get ⟨4 * kb + 3, by omega⟩ = 40)
    (hH : auctionStartBase g d + 60 * kb = 1440 * d + 60 * H) :
    ((1440 * d + 60 * H, (25 : ℚ)) ∈ read_single_auction_file raw g d) ∧
    (∀ q : ℚ, (1440 * d + 60 * H, q) ∈ read_single_auction_file raw g d →
      q = 25) ∧
    (∀ r ∈ read_single_auction_file raw g d, ∃ κ,
      (((auctionTimedRows raw g d).filter
          fun x => bucketKey x.1 == κ).map fun x => x.1).min? = some r.1 ∧
      r.2 = listMean (((auctionTimedRows raw g d).filter
          fun x => bucketKey x.1 == κ).map fun x => x.2)) := by
  have hblock := members_of_full_block raw g d kb hkb
  have hsnd2 : ∀ (m : Nat) (hm : m < (auctionKeptPrices raw).length),
      ((auctionTimedRows raw g d).get ⟨m, by
        rw [auctionTimedRows_length]; exact hm⟩).2 =
        (auctionKeptPrices raw).get ⟨m, hm⟩ := by
    intro m hm
    rw [List.get_eq_getElem,
      auctionTimedRows_getElem raw g d m (by rw [auctionTimedRows_length]; exact hm) hm]
  have hsnd : (((auctionTimedRows raw g d).filter
      fun x => bucketKey x.1 ==
        bucketKey (auctionStartBase g d + 60 * kb)).map fun x => x.2) =
      [10, 20, 30, 40] := by
    rw [hblock]
    simp only [List.map_cons, List.map_nil]
    rw [hsnd2 (4 * kb) (by omega), hsnd2 (4 * kb + 1) (by omega),
      hsnd2 (4 * kb + 2) (by omega), hsnd2 (4 * kb + 3) (by omega),
      h10, h20, h30, h40]
  have hmean : listMean [10, 20, 30, 40] = 25 := by
    norm_num [listMean]
  have hb4 : 4 * kb < (auctionTimedRows raw g d).length := by
    rw [auctionTimedRows_length]; omega
  have hκ0mem : bucketKey (auctionStartBase g d + 60 * kb) ∈
      (auctionTimedRows raw g d).map fun r => bucketKey r.1 := by
    apply List.mem_map.mpr
    refine ⟨(auctionTimedRows raw g d).get ⟨4 * kb, hb4⟩, by
      rw [List.get_eq_getElem]; exact List.getElem_mem _, ?_⟩
    exact beq_iff_eq.mp ((timed_beq_key_iff raw g d kb (4 * kb) hb4).mpr (by omega))
  obtain ⟨kb2, hkb2, hkey2, hmin2⟩ := minStart_block raw g d _ hκ0mem
  have hkbeq : kb2 = kb := by
    have h1 := hkey2
    have h60a : auctionStartBase g d + 60 * kb =
        auctionStartBase g d + 15 * (4 * kb) := by ring
    have h60b : auctionStartBase g d + 60 * kb2 =
        auctionStartBase g d + 15 * (4 * kb2) := by ring
    rw [h60a, h60b, timed_key_eq] at h1
    omega
  rw [hkbeq] at hmin2
  have hrowmem : (auctionStartBase g d + 60 * kb, (25 : ℚ)) ∈
      ((((auctionTimedRows raw g d).map fun r => bucketKey r.1).dedup).map
        fun k =>
          ((((auctionTimedRows raw g d).filter
              fun r => bucketKey r.1 == k).map fun r => r.1).min?.getD 0,
           listMean (((auctionTimedRows raw g d).filter
              fun r => bucketKey r.1 == k).map fun r => r.2))) := by
    apply List.mem_map.mpr
    refine ⟨bucketKey (auctionStartBase g d + 60 * kb),
      List.mem_dedup.mpr hκ0mem, ?_⟩
    rw [hmin2, hsnd, hmean]
    rfl
  have hmem : (auctionStartBase g d + 60 * kb, (25 : ℚ)) ∈
      read_single_auction_file raw g d := by
    rw [read_single_eq, List.mem_insertionSort]
    exact hrowmem
  rw [hH] at hmem
  refine ⟨hmem, ?_, ?_⟩
  · intro q hq
    exact nodup_fst_unique (read_single_starts_nodup raw g d) hq hmem
  · intro r hr
    rw [read_single_eq, List.mem_insertionSort] at hr
    obtain ⟨κ, hκ, hrow⟩ := List.mem_map.mp hr
    obtain ⟨kb3, hkb3, hkey3, hmin3⟩ :=
      minStart_block raw g d κ (List.mem_dedup.mp hκ)
    refine ⟨κ, ?_, ?_⟩
    · rw [hmin3, ← hrow]
      dsimp only
      rw [hmin3]
      rfl
    · rw [← hrow]

/-- Witness for C7 at a concrete input: a four-interval IDA1 file on day 0
with prices 10, 20, 30, 40 aggregates to the single hourly row (hour 0,
price 25). -/
theorem claim_hourly_aggregation_witness :
    ((1440 * 0 + 60 * 0, (25 : ℚ)) ∈ read_single_auction_file
        [⟨some "q1", some 10⟩, ⟨some "q2", some 20⟩,
         ⟨some "q3", some 30⟩, ⟨some "q4", some 40⟩] IdaGroup.IDA1 0) ∧
    (∀ q : ℚ, (1440 * 0 + 60 * 0, q) ∈ read_single_auction_file
        [⟨some "q1", some 10⟩, ⟨some "q2", some 20⟩,
         ⟨some "q3", some 30⟩, ⟨some "q4", some 40⟩] IdaGroup.IDA1 0 →
      q = 25) ∧
    (∀ r ∈ read_single_auction_file
        [⟨some "q1", some 10⟩, ⟨some "q2", some 20⟩,
         ⟨some "q3", some 30⟩, ⟨some "q4", some 40⟩] IdaGroup.IDA1 0, ∃ κ,
      (((auctionTimedRows
          [⟨some "q1", some 10⟩, ⟨some "q2", some 20⟩,
           ⟨some "q3", some 30⟩, ⟨some "q4", some 40⟩] IdaGroup.IDA1 0).filter
          fun x => bucketKey x.1 == κ).map fun x => x.1).min? = some r.1 ∧
      r.2 = listMean (((auctionTimedRows
          [⟨some "q1", some 10⟩, ⟨some "q2", some 20⟩,
           ⟨some "q3", some 30⟩, ⟨some "q4", some 40⟩] IdaGroup.IDA1 0).filter
          fun x => bucketKey x.1 == κ).map fun x => x.2)) :=
  claim_hourly_aggregation _ IdaGroup.IDA1 0 0 0 (by decide) (by decide)
    (by decide) (by decide) (by decide) (by decide)

/-- C6: when the Matcher succeeds on a catalog entry, the joined table has
exactly one row per row of the narrowed forecast subset: each forecast row is
tagged with the price of the unique auction row whose start time equals its
horizon time (null when there is none), the output length equals the
narrowed subset length, and no duplication occurs because the hourly auction
start times are pairwise distinct. -/
theorem claim_left_join_per_forecast_row (files : AuctionFiles)
    (fdf : List ForecastRow) (a : AuctionCatalogRow)
    (joined : List MatchedRow)
    (hok : matchSingleAuction files fdf a = .ok joined) :
    joined = ((relevantForecasts files fdf a).map fun f =>
      tagRow a f (((auctionDfRelevant files fdf a).find?
        fun x => x.1 == f.time).map fun x => x.2)) ∧
    joined.length = (relevantForecasts files fdf a).length ∧
    ((auctionDfOf files a).map (fun r => r.1)).Nodup ∧
    (∀ x ∈ auctionDfRelevant files fdf a, ∀ y ∈ auctionDfRelevant files fdf a,
      x.1 = y.1 → x = y) := by
  have hjr : joined = joinedRows files fdf a := by
    unfold matchSingleAuction at hok
    split_ifs at hok
    all_goals
      first
        | exact Except.noConfusion hok
        | exact (Except.ok.inj hok).symm
  have hmap := joinedRows_eq files fdf a
  refine ⟨hjr.trans hmap, ?_, ?_, ?_⟩
  · rw [hjr, hmap, List.length_map]
  · exact read_single_starts_nodup (files a.filepath) a.idaGroup a.deliveryDate
  · intro x hx y hy hxy
    have h2 : x.2 = y.2 := by
      have hx2 : (x.1, x.2) ∈ auctionDfRelevant files fdf a := by
        simpa using hx
      have hy2 : (x.1, y.2) ∈ auctionDfRelevant files fdf a := by
        rw [hxy]
        simpa using hy
      exact nodup_fst_unique (auctionDfRelevant_nodup_fst files fdf a) hx2 hy2
    exact Prod.ext hxy h2

/-- Witness for C6 at a concrete input: one forecast row at horizon minute
1440 issued at hour 15 of day 0, and a four-interval IDA1 auction file for
delivery day 1; the Matcher succeeds and joins the single hourly auction row
onto the single relevant forecast row. -/
theorem claim_left_join_per_forecast_row_witness :
    (matchSingleAuction
        (fun _ => [⟨some "q1", some 10⟩, ⟨some "q2", some 20⟩,
          ⟨some "q3", some 30⟩, ⟨some "q4", some 40⟩])
        [⟨1440, 900, 3, 4⟩] ⟨"f1", Region.DK1, IdaGroup.IDA1, 1⟩ =
      .ok [⟨1440, 900, 3, 4, some 25, none, IdaGroup.IDA1, Region.DK1, "f1"⟩]) ∧
    ([⟨1440, 900, 3, 4, some 25, none, IdaGroup.IDA1, Region.DK1, "f1"⟩] :
        List MatchedRow) =
      ((relevantForecasts
          (fun _ => [⟨some "q1", some 10⟩, ⟨some "q2", some 20⟩,
            ⟨some "q3", some 30⟩, ⟨some "q4", some 40⟩])
          [⟨1440, 900, 3, 4⟩] ⟨"f1", Region.DK1, IdaGroup.IDA1, 1⟩).map fun f =>
        tagRow ⟨"f1", Region.DK1, IdaGroup.IDA1, 1⟩ f
          (((auctionDfRelevant
              (fun _ => [⟨some "q1", some 10⟩, ⟨some "q2", some 20⟩,
                ⟨some "q3", some 30⟩, ⟨some "q4", some 40⟩])
              [⟨1440, 900, 3, 4⟩] ⟨"f1", Region.DK1, IdaGroup.IDA1, 1⟩).find?
            fun x => x.1 == f.time).map fun x => x.2)) := by
  have hbase : auctionStartBase IdaGroup.IDA1 1 = 1440 := by decide
  have heval : auctionDfOf
      (fun _ => [⟨some "q1", some 10⟩, ⟨some "q2", some 20⟩,
        ⟨some "q3", some 30⟩, ⟨some "q4", some 40⟩])
      ⟨"f1", Region.DK1, IdaGroup.IDA1, 1⟩ = [(1440, 25)] := by
    unfold auctionDfOf
    norm_num [read_single_auction_file, auctionTimedRows, auctionKeptPrices,
      hbase, bucketKey, dateOf, hourOf, listMean, List.enum, List.enumFrom,
      List.insertionSort, List.orderedInsert, List.filterMap, List.min?]
  have hrel : relevantForecasts
      (fun _ => [⟨some "q1", some 10⟩, ⟨some "q2", some 20⟩,
        ⟨some "q3", some 30⟩, ⟨some "q4", some 40⟩])
      [⟨1440, 900, 3, 4⟩] ⟨"f1", Region.DK1, IdaGroup.IDA1, 1⟩ =
      [⟨1440, 900, 3, 4⟩] := by
    simp only [relevantForecasts, heval]
    decide
  have hrelA : auctionDfRelevant
      (fun _ => [⟨some "q1", some 10⟩, ⟨some "q2", some 20⟩,
        ⟨some "q3", some 30⟩, ⟨some "q4", some 40⟩])
      [⟨1440, 900, 3, 4⟩] ⟨"f1", Region.DK1, IdaGroup.IDA1, 1⟩ =
      [(1440, 25)] := by
    simp only [auctionDfRelevant, hrel, heval]
    decide
  have hjoin : joinedRows
      (fun _ => [⟨some "q1", some 10⟩, ⟨some "q2", some 20⟩,
        ⟨some "q3", some 30⟩, ⟨some "q4", some 40⟩])
      [⟨1440, 900, 3, 4⟩] ⟨"f1", Region.DK1, IdaGroup.IDA1, 1⟩ =
      [⟨1440, 900, 3, 4, some 25, none, IdaGroup.IDA1, Region.DK1, "f1"⟩] := by
    simp only [joinedRows, hrel, hrelA]
    decide
  have hok : matchSingleAuction
      (fun _ => [⟨some "q1", some 10⟩, ⟨some "q2", some 20⟩,
        ⟨some "q3", some 30⟩, ⟨some "q4", some 40⟩])
      [⟨1440, 900, 3, 4⟩] ⟨"f1", Region.DK1, IdaGroup.IDA1, 1⟩ =
      .ok [⟨1440, 900, 3, 4, some 25, none, IdaGroup.IDA1, Region.DK1, "f1"⟩] := by
    unfold matchSingleAuction
    rw [if_neg (by decide), if_neg (by rw [hrel]; decide), hjoin]
  exact ⟨hok, (claim_left_join_per_forecast_row _ _ _ _ hok).1⟩

/-- Witness for C4 at a concrete input: the permuted pair of one-row tables
of the counterexample, at time 100. -/
theorem claim_merger_order_amended_witness :
    (((merge_forecast_and_auction_dataframes
        [[⟨100, 40, 1, 2, some 5, none, IdaGroup.IDA1, Region.DK1, "a"⟩],
         [⟨100, 40, 1, 2, none, some 7, IdaGroup.IDA1, Region.DK2, "b"⟩]]).filter
        fun r => r.time == 100).filterMap fun r => r.auctionPriceDK1).Perm
      (((merge_forecast_and_auction_dataframes
        [[⟨100, 40, 1, 2, none, some 7, IdaGroup.IDA1, Region.DK2, "b"⟩],
         [⟨100, 40, 1, 2, some 5, none, IdaGroup.IDA1, Region.DK1, "a"⟩]]).filter
        fun r => r.time == 100).filterMap fun r => r.auctionPriceDK1) ∧
    (((merge_forecast_and_auction_dataframes
        [[⟨100, 40, 1, 2, some 5, none, IdaGroup.IDA1, Region.DK1, "a"⟩],
         [⟨100, 40, 1, 2, none, some 7, IdaGroup.IDA1, Region.DK2, "b"⟩]]).filter
        fun r => r.time == 100).filterMap fun r => r.auctionPriceDK2).Perm
      (((merge_forecast_and_auction_dataframes
        [[⟨100, 40, 1, 2, none, some 7, IdaGroup.IDA1, Region.DK2, "b"⟩],
         [⟨100, 40, 1, 2, some 5, none, IdaGroup.IDA1, Region.DK1, "a"⟩]]).filter
        fun r => r.time == 100).filterMap fun r => r.auctionPriceDK2) :=
  claim_merger_order_amended _ _ (List.Perm.swap _ _ _) 100

/-- C8: `check_unique_time_ptime_combinations` returns true exactly when no
two rows of the cleaned forecast table share the same (Time, PTime) pair, and
`read_forecast_df` with validation enabled raises an error exactly when the
check returns false. -/
theorem claim_unique_check (df : List ForecastRow) :
    (check_unique_time_ptime_combinations df = true ↔
      (df.map fun r => (r.time, r.ptime)).Nodup) ∧
    ((∃ e, read_forecast_df df true = .error e) ↔
      check_unique_time_ptime_combinations df = false) := by
  refine ⟨check_unique_iff_nodup df, ?_⟩
  simp only [read_forecast_df, Bool.true_and, check_unique_insertionSort]
  cases h : check_unique_time_ptime_combinations df <;> simp [h]

/-- C5: the forecast subset selected for an auction entry before the
time-window narrowing consists exactly of the forecast rows issued on the
delivery date or the day before it at the hour required by the auction group
(15 for IDA1, 22 for IDA2, 10 for IDA3). -/
theorem claim_issuance_hour_rule (fdf : List ForecastRow) (d : Nat)
    (g : IdaGroup) :
    (∀ r, r ∈ forecastsForAuction fdf d g ↔
      r ∈ fdf ∧ (dateOf r.ptime = d ∨ dateOf r.ptime = d - 1) ∧
        hourOf r.ptime = ptimeHourNeeded g) ∧
    ptimeHourNeeded IdaGroup.IDA1 = 15 ∧ ptimeHourNeeded IdaGroup.IDA2 = 22 ∧
      ptimeHourNeeded IdaGroup.IDA3 = 10 := by
  refine ⟨fun r => ?_, rfl, rfl, rfl⟩
  unfold forecastsForAuction
  rw [List.mem_insertionSort, List.mem_filter, List.mem_filter]
  simp only [beq_iff_eq, Bool.or_eq_true, and_assoc]

/-- C2: a row is in the merged output exactly when it is among the grouped
and compacted rows and at least one of its two auction prices is non-null;
in particular every output row has a non-null auction price in some region. -/
theorem claim_drop_rule (dfs : List (List MatchedRow)) (r : MatchedRow) :
    r ∈ merge_forecast_and_auction_dataframes dfs ↔
      r ∈ mergeGroupedRows dfs ∧
        (r.auctionPriceDK1 ≠ none ∨ r.auctionPriceDK2 ≠ none) := by
  unfold merge_forecast_and_auction_dataframes
  rw [List.mem_insertionSort, List.mem_filter]
  simp [Option.isNone_iff_eq_none, not_and_or, Option.isSome_iff_ne_none]

/-- C9: the metric expressions of `compute_forecast_metrics` agree with the
specification formulas for each region: MAE is the mean absolute difference,
MSE the mean squared difference, RMSE the real square root of that MSE, and
MAPE the mean absolute difference relative to the auction price with epsilon
1e-10 substituted exactly at zero auction prices, whose denominator is never
zero.  The means run over the rows where the region has an auction price
(elsewhere the difference is null and polars `mean` skips it). -/
theorem claim_metric_formulas (rows : List MatchedRow) :
    maeDK1 rows = specMaeDK1 rows ∧ mseDK1 rows = specMseDK1 rows ∧
    rmseRadicandDK1 rows = mseDK1 rows ∧
    (rmseRadicandDK1 rows).map (fun q => Real.sqrt (q : ℝ)) =
      (mseDK1 rows).map (fun q => Real.sqrt (q : ℝ)) ∧
    mapeDK1 rows = specMapeDK1 rows ∧
    maeDK2 rows = specMaeDK2 rows ∧ mseDK2 rows = specMseDK2 rows ∧
    rmseRadicandDK2 rows = mseDK2 rows ∧
    (rmseRadicandDK2 rows).map (fun q => Real.sqrt (q : ℝ)) =
      (mseDK2 rows).map (fun q => Real.sqrt (q : ℝ)) ∧
    mapeDK2 rows = specMapeDK2 rows ∧
    (∀ q : ℚ, mapeDivisor q ≠ 0) ∧
    compute_forecast_metrics rows =
      ((maeDK1 rows, mseDK1 rows, rmseRadicandDK1 rows, mapeDK1 rows),
       (maeDK2 rows, mseDK2 rows, rmseRadicandDK2 rows, mapeDK2 rows)) := by
  refine ⟨?_, ?_, rfl, rfl, ?_, ?_, ?_, rfl, rfl, ?_, ?_, rfl⟩
  · rw [maeDK1, meanSkipNulls_eq rows _ (fun r a => |r.dk1ForecastPrice - a|)]
    rfl
  · rw [mseDK1, meanSkipNulls_eq rows _ (fun r a => (r.dk1ForecastPrice - a) ^ 2)]
    rfl
  · rw [mapeDK1,
      meanSkipNulls_eq rows _ (fun r a => |r.dk1ForecastPrice - a| / mapeDivisor a)]
    simp only [specMapeDK1, specDefinedDK1, mapeDivisor]
  · rw [maeDK2, meanSkipNulls_eq rows _ (fun r a => |r.dk2ForecastPrice - a|)]
    rfl
  · rw [mseDK2, meanSkipNulls_eq rows _ (fun r a => (r.dk2ForecastPrice - a) ^ 2)]
    rfl
  · rw [mapeDK2,
      meanSkipNulls_eq rows _ (fun r a => |r.dk2ForecastPrice - a| / mapeDivisor a)]
    simp only [specMapeDK2, specDefinedDK2, mapeDivisor]
  · intro q
    unfold mapeDivisor mapeEpsilon
    split
    · norm_num
    · assumption

end ForecastAuction


